import Mathlib

/-!
Verification of the price-tracking engine of `src/bot.js` (scalper3000).

The JavaScript store is a JSON object keyed by URL strings; we embed it as an
insertion-ordered association list `List (String × _)`, which is what `for in`
iteration, `obj[k] = v` assignment and `delete obj[k]` operate on.  Timestamps
(`Date.getTime()` milliseconds) are embedded as `Int`, calendar days
(`Date.toDateString()` equality) as the day number of the timestamp in a fixed
reference zone, and JS numbers as `ℚ`.
-/

namespace Scalper

/-- Milliseconds since the epoch, as produced by JS `Date.prototype.getTime`. -/
abbrev Millis := Int

/-- Calendar day of a timestamp (fixed reference zone): two timestamps have
equal `toDateString()` exactly when they fall in the same day bucket. -/
def dayOf (t : Millis) : Int := t.fdiv 86400000

/-- `30 * 24 * 60 * 60 * 1000`, the window used by `cleanOldEntries`
(bot.js line 74). -/
def retentionMs : Int := 30 * 24 * 60 * 60 * 1000

/-- One stored price observation `{title, price, currency, timestamp}`
(bot.js lines 105-110). -/
structure PriceEntry where
  title : String
  price : ℚ
  currency : String
  timestamp : Millis
deriving DecidableEq, Repr

/-- The persisted `price_history.json` object: URL key to series. -/
abbrev PriceHistory := List (String × List PriceEntry)

/-- JS object read `obj[k]`. -/
def getKey {V : Type} (l : List (String × V)) (k : String) : Option V :=
  (l.find? (fun kv => kv.1 == k)).map (fun kv => kv.2)

/-- JS object write `obj[k] = v`: overwrite the value in place if the key
exists, otherwise append a new key at the end (JS insertion order). -/
def setKey {V : Type} (l : List (String × V)) (k : String) (v : V) :
    List (String × V) :=
  if l.any (fun kv => kv.1 == k) then
    l.map (fun kv => if kv.1 == k then (k, v) else kv)
  else l ++ [(k, v)]

/-- `priceHistory[url]` defaulted to the empty series. -/
def getSeries (s : PriceHistory) (url : String) : List PriceEntry :=
  (getKey s url).getD []

/-- `cleanOldEntries` (bot.js lines 73-88): for every URL in the object, keep
only entries with `getTime() > now - 30 days`, then delete keys whose array
became empty. -/
def cleanOldEntries (now : Millis) (s : PriceHistory) : PriceHistory :=
  (s.map (fun kv =>
      (kv.1, kv.2.filter (fun e => decide (now - retentionMs < e.timestamp))))).filter
    (fun kv => !kv.2.isEmpty)

/-- `savePriceHistory` (bot.js lines 91-119): if an entry with today's date
already exists for the URL the durable store is untouched (no save happens);
otherwise the new entry is pushed, `cleanOldEntries` runs on the whole object,
and the result is persisted. -/
def savePriceHistory (now : Millis) (url title : String) (price : ℚ)
    (currency : String) (s : PriceHistory) : PriceHistory :=
  if (getSeries s url).any (fun e => dayOf e.timestamp == dayOf now) then s
  else cleanOldEntries now
    (setKey s url (getSeries s url ++ [⟨title, price, currency, now⟩]))

/-- The save step of `scrapeEmpikProduct` (bot.js lines 266-269): the price
history is written only when the fetched `price > 0`; a non-positive price is
skipped, so nothing is appended.  This guard is the code's `InvalidPrice`
rejection: `savePriceHistory` itself is only ever called through it. -/
def scrapeRecord (now : Millis) (url title : String) (price : ℚ)
    (currency : String) (s : PriceHistory) : PriceHistory :=
  if 0 < price then savePriceHistory now url title price currency s else s

/-- Round to 2 decimal places, embedding `Number.prototype.toFixed(2)` on the
non-negative values the code feeds it. -/
def round2 (q : ℚ) : ℚ := ((round (q * 100) : ℤ) : ℚ) / 100

/-- Round to 1 decimal place, embedding `toFixed(1)`. -/
def round1 (q : ℚ) : ℚ := ((round (q * 10) : ℤ) : ℚ) / 10

/-- The object returned by `getPriceStats` (bot.js lines 135-142). -/
structure PriceStats where
  lowest_price : ℚ
  highest_price : ℚ
  avg_price : ℚ
  price_checks : Nat
  latest_price : ℚ
  latest_check : Millis
deriving DecidableEq, Repr

/-- `getPriceStats` (bot.js lines 122-147): `null` when the (defaulted) series
is empty; otherwise min/max/average over all prices in the series, count, and
the last element of the series as `latest`. -/
def getPriceStats (s : PriceHistory) (url : String) : Option PriceStats :=
  match getSeries s url with
  | [] => none
  | e :: es =>
    let prices := (e :: es).map (fun x => x.price)
    let latest := es.getLast?.getD e
    some
      { lowest_price := (es.map (fun x => x.price)).foldl min e.price
        highest_price := (es.map (fun x => x.price)).foldl max e.price
        avg_price := round2 (prices.sum / (prices.length : ℚ))
        price_checks := es.length + 1
        latest_price := latest.price
        latest_check := latest.timestamp }

end Scalper

namespace Scalper

/-- Insert `a` into `l`, passing over every element it is not strictly smaller
than under `lt`.  Among elements comparing equal the newcomer lands last, which
is what makes the resulting sort stable. -/
def insertSorted {α : Type} (lt : α → α → Bool) (a : α) : List α → List α
  | [] => [a]
  | b :: bs => if lt a b then a :: b :: bs else b :: insertSorted lt a bs

/-- Stable sort, modelling JS `Array.prototype.sort` (stable per ES2019):
elements are inserted left to right. -/
def stableSort {α : Type} (lt : α → α → Bool) (l : List α) : List α :=
  l.foldl (fun acc a => insertSorted lt a acc) []

/-- One element of the array returned by `findCurrentDeals`
(bot.js lines 214-221).  `discount_percent` holds the `toFixed(1)` value the
code both displays and sorts by (it parses the string back with
`parseFloat`). -/
structure Deal where
  url : String
  title : String
  current_price : ℚ
  previous_price : ℚ
  discount_percent : ℚ
  currency : String
deriving DecidableEq, Repr

/-- `history.sort((a, b) => new Date(a.timestamp) - new Date(b.timestamp))`
(bot.js line 205). -/
def sortByTimestamp (l : List PriceEntry) : List PriceEntry :=
  stableSort (fun a b => decide (a.timestamp < b.timestamp)) l

/-- The loop body of `findCurrentDeals` (bot.js lines 200-224) for one URL:
skip histories shorter than 2, sort chronologically, compare the last two
entries, and emit a deal when the drop is at least 5 percent. -/
def dealOf (url : String) (history : List PriceEntry) : Option Deal :=
  if history.length < 2 then none
  else
    match (sortByTimestamp history).getLast?,
        (sortByTimestamp history).dropLast.getLast? with
    | some latest, some previous =>
      if latest.price < previous.price then
        if 5 ≤ (previous.price - latest.price) / previous.price * 100 then
          some ⟨url, latest.title, latest.price, previous.price,
            round1 ((previous.price - latest.price) / previous.price * 100),
            latest.currency⟩
        else none
      else none
    | _, _ => none

/-- The `deals` array of `findCurrentDeals` before sorting, in `for in`
(insertion) order. -/
def dealCandidates (s : PriceHistory) : List Deal :=
  s.filterMap (fun kv => dealOf kv.1 kv.2)

/-- `findCurrentDeals` (bot.js lines 195-234): sort the candidates by
`parseFloat(b.discount_percent) - parseFloat(a.discount_percent)` (descending,
stable) and return the first `limit` (the code's default is 5). -/
def findCurrentDeals (limit : Nat) (s : PriceHistory) : List Deal :=
  (stableSort (fun a b => decide (b.discount_percent < a.discount_percent))
    (dealCandidates s)).take limit

end Scalper

namespace Scalper

/-- A value of the `tracked_items.json` object (bot.js lines 155-161). -/
structure TrackedItem where
  userId : String
  channelId : String
  url : String
  targetPrice : ℚ
  createdAt : Millis
deriving DecidableEq, Repr

/-- The persisted `tracked_items.json` object. -/
abbrev Registry := List (String × TrackedItem)

/-- The registry key `` `${userId}-${url}` `` (bot.js lines 153, 186). -/
def trackKey (userId url : String) : String := userId ++ "-" ++ url

/-- `saveTrackedItem` (bot.js lines 150-169): unconditional upsert at the
concatenated key. -/
def saveTrackedItem (now : Millis) (userId channelId url : String)
    (targetPrice : ℚ) (reg : Registry) : Registry :=
  setKey reg (trackKey userId url) ⟨userId, channelId, url, targetPrice, now⟩

/-- `removeTrackedItem` (bot.js lines 183-192): `delete trackedItems[key]`. -/
def removeTrackedItem (userId url : String) (reg : Registry) : Registry :=
  reg.filter (fun kv => !(kv.1 == trackKey userId url))

/-- What `scrapeEmpikProduct` hands back to the scheduler. -/
structure FetchedProduct where
  title : String
  price : ℚ
  currency : String
deriving DecidableEq, Repr

/-- The external circumstances of one scheduler iteration for one item:
whether the fetch produced a product, whether `client.channels.cache.get`
found the channel, and whether the `channel.send` promise eventually
succeeds. -/
structure TickEnv where
  fetch : Option FetchedProduct
  channelFound : Bool
  notifySucceeds : Bool
deriving DecidableEq, Repr

/-- One iteration of the cron callback (bot.js lines 539-569) for one tracked
item.  `scrapeEmpikProduct` writes the price history when `price > 0`; the
alert branch runs when `product && price <= targetPrice && price > 0`; inside
it, `channel.send` is fired without awaiting its promise, and
`removeTrackedItem` then runs unconditionally — which is why
`env.notifySucceeds` does not occur in the body. -/
def tickItem (now : Millis) (item : TrackedItem) (env : TickEnv)
    (store : PriceHistory) (reg : Registry) : PriceHistory × Registry :=
  match env.fetch with
  | none => (store, reg)
  | some p =>
    let store1 := scrapeRecord now item.url p.title p.price p.currency store
    if p.price ≤ item.targetPrice ∧ 0 < p.price then
      if env.channelFound then
        (store1, removeTrackedItem item.userId item.url reg)
      else (store1, reg)
    else (store1, reg)

/-- One attempted observation for a fixed URL: the arguments of one
`scrapeEmpikProduct`-driven record call, including the instant `new Date()`
at which it runs. -/
structure RecordCall where
  title : String
  price : ℚ
  currency : String
  now : Millis
deriving DecidableEq, Repr

/-- A sequence of record calls on one URL, applied oldest first. -/
def runCalls (url : String) (cs : List RecordCall) (s : PriceHistory) :
    PriceHistory :=
  cs.foldl (fun st c => scrapeRecord c.now url c.title c.price c.currency st) s

end Scalper

namespace Scalper

/-- C4: a record call with `price ≤ 0` is rejected by the `product.price > 0`
guard on the write path, and no PriceRecord is appended — the store is
untouched. -/
theorem C4_invalid_price_rejected (now : Millis) (url title : String)
    (price : ℚ) (currency : String) (s : PriceHistory) (h : price ≤ 0) :
    scrapeRecord now url title price currency s = s := by
  simp [scrapeRecord, not_lt.mpr h]

/-- Witness for C4 at `price = -5` on the empty store. -/
theorem C4_invalid_price_rejected_witness :
    (-5 : ℚ) ≤ 0 ∧ scrapeRecord 0 "u" "t" (-5) "PLN" [] = [] :=
  ⟨by norm_num, C4_invalid_price_rejected 0 "u" "t" (-5) "PLN" [] (by norm_num)⟩

/-- C10: the registry key `userId ++ "-" ++ url` is not injective: the owner
`"a-b"` with item `"c"` and the owner `"a"` with item `"b-c"` collide on the
key `"a-b-c"`, so subscribing the second pair overwrites the first pair's
TrackedItem, and unsubscribing the first pair deletes the second pair's
entry. -/
theorem C10_key_collision :
    trackKey "a-b" "c" = trackKey "a" "b-c"
      ∧ (("a-b", "c") : String × String) ≠ ("a", "b-c")
      ∧ saveTrackedItem 1 "a" "ch" "b-c" 20 (saveTrackedItem 0 "a-b" "ch" "c" 10 [])
          = [("a-b-c", ⟨"a", "ch", "b-c", 20, 1⟩)]
      ∧ removeTrackedItem "a-b" "c"
          (saveTrackedItem 1 "a" "ch" "b-c" 20
            (saveTrackedItem 0 "a-b" "ch" "c" 10 [])) = [] := by
  refine ⟨rfl, by decide, by decide, by decide⟩

/-- C7: on the series `[10, 8, 12]` (chronological) the stats are
`low = 8, high = 12, average = 10.00, count = 3, latest price = 12`; and in
general `getPriceStats` returns `null` whenever no series exists for the
URL. -/
theorem C7_stats_example_and_notfound :
    getPriceStats
        [("u", [⟨"t", 10, "PLN", 0⟩, ⟨"t", 8, "PLN", 1⟩, ⟨"t", 12, "PLN", 2⟩])] "u"
        = some ⟨8, 12, 10, 3, 12, 2⟩
      ∧ ∀ (s : PriceHistory) (url : String),
          getSeries s url = [] → getPriceStats s url = none := by
  constructor
  · show some _ = some _
    norm_num [round2]
  · intro s url h
    unfold getPriceStats
    rw [h]

/-- Witness for C7: the no-series branch at the empty store. -/
theorem C7_stats_witness :
    getSeries ([] : PriceHistory) "u" = ([] : List PriceEntry)
      ∧ getPriceStats ([] : PriceHistory) "u" = none :=
  ⟨rfl, C7_stats_example_and_notfound.2 [] "u" rfl⟩

theorem mem_insertSorted {α : Type} (lt : α → α → Bool) (a x : α) (l : List α) :
    x ∈ insertSorted lt a l ↔ x = a ∨ x ∈ l := by
  induction l with
  | nil => simp [insertSorted]
  | cons b bs ih =>
    by_cases h : lt a b = true
    · simp only [insertSorted, if_pos h, List.mem_cons]
    · simp only [insertSorted, if_neg h, List.mem_cons, ih]
      tauto

theorem pairwise_insertSorted {α : Type} (lt : α → α → Bool) (R : α → α → Prop)
    (h1 : ∀ a b, lt a b = true → R a b) (h2 : ∀ a b, lt a b = false → R b a)
    (ht : ∀ a b c, R a b → R b c → R a c) (a : α) (l : List α)
    (hl : l.Pairwise R) : (insertSorted lt a l).Pairwise R := by
  induction l with
  | nil => simp [insertSorted]
  | cons b bs ih =>
    rcases List.pairwise_cons.mp hl with ⟨hb, hbs⟩
    by_cases h : lt a b = true
    · rw [insertSorted, if_pos h]
      refine List.pairwise_cons.mpr ⟨?_, hl⟩
      intro x hx
      rcases List.mem_cons.mp hx with rfl | hx
      · exact h1 a x h
      · exact ht a b x (h1 a b h) (hb x hx)
    · rw [insertSorted, if_neg h]
      refine List.pairwise_cons.mpr ⟨?_, ih hbs⟩
      intro x hx
      rcases (mem_insertSorted lt a x bs).mp hx with rfl | hx
      · exact h2 x b (by simpa using h)
      · exact hb x hx

theorem pairwise_stableSort {α : Type} (lt : α → α → Bool) (R : α → α → Prop)
    (h1 : ∀ a b, lt a b = true → R a b) (h2 : ∀ a b, lt a b = false → R b a)
    (ht : ∀ a b c, R a b → R b c → R a c) (l : List α) :
    (stableSort lt l).Pairwise R := by
  suffices h : ∀ acc : List α, acc.Pairwise R →
      (l.foldl (fun acc a => insertSorted lt a acc) acc).Pairwise R from
    h [] List.Pairwise.nil
  induction l with
  | nil => intro acc hacc; simpa using hacc
  | cons a as ih =>
    intro acc hacc
    exact ih _ (pairwise_insertSorted lt R h1 h2 ht a acc hacc)

theorem length_insertSorted {α : Type} (lt : α → α → Bool) (a : α) (l : List α) :
    (insertSorted lt a l).length = l.length + 1 := by
  induction l with
  | nil => rfl
  | cons b bs ih =>
    by_cases h : lt a b = true
    · rw [insertSorted, if_pos h]
      simp
    · rw [insertSorted, if_neg h]
      simp [ih]

theorem length_stableSort {α : Type} (lt : α → α → Bool) (l : List α) :
    (stableSort lt l).length = l.length := by
  suffices h : ∀ acc : List α,
      (l.foldl (fun acc a => insertSorted lt a acc) acc).length
        = l.length + acc.length by
    simpa using h []
  induction l with
  | nil => intro acc; simp
  | cons a as ih =>
    intro acc
    rw [List.foldl_cons, ih, length_insertSorted]
    simp only [List.length_cons]
    omega

/-- C5 (amended): the deal list is sorted in non-increasing order of the
1-decimal `discount_percent` and has at most `limit` entries; equal discounts
keep the store's iteration order — they are NOT re-broken by item identifier
(see the counterexample). -/
theorem C5_sorted_and_bounded (limit : Nat) (s : PriceHistory) :
    (findCurrentDeals limit s).Pairwise
        (fun a b => b.discount_percent ≤ a.discount_percent)
      ∧ (findCurrentDeals limit s).length ≤ limit := by
  constructor
  · unfold findCurrentDeals
    refine List.Pairwise.sublist (List.take_sublist _ _) ?_
    refine pairwise_stableSort _ _ ?_ ?_ ?_ _
    · intro a b h
      exact le_of_lt (of_decide_eq_true h)
    · intro a b h
      exact not_lt.mp (of_decide_eq_false h)
    · intro a b c hab hbc
      exact le_trans hbc hab
  · unfold findCurrentDeals
    exact List.length_take_le _ _

/-- C5 counterexample: two items with the same drop percentage (both 10.0)
stored with URL `"b"` before URL `"a"` come out in store order `["b", "a"]`,
not in the itemId-ascending order `["a", "b"]` the claim demands for ties:
the comparator `(a, b) => parseFloat(b.discount_percent) -
parseFloat(a.discount_percent)` has no tie-break. -/
theorem C5_tiebreak_counterexample :
    findCurrentDeals 5
        [("b", [⟨"t", 100, "PLN", 0⟩, ⟨"t", 90, "PLN", 1⟩]),
         ("a", [⟨"t", 100, "PLN", 2⟩, ⟨"t", 90, "PLN", 3⟩])]
      = [⟨"b", "t", 90, 100, 10, "PLN"⟩, ⟨"a", "t", 90, 100, 10, "PLN"⟩] := by
  have hb : dealOf "b" [⟨"t", 100, "PLN", 0⟩, ⟨"t", 90, "PLN", 1⟩]
      = some ⟨"b", "t", 90, 100, 10, "PLN"⟩ := by
    norm_num [dealOf, sortByTimestamp, stableSort, insertSorted, round1]
  have ha : dealOf "a" [⟨"t", 100, "PLN", 2⟩, ⟨"t", 90, "PLN", 3⟩]
      = some ⟨"a", "t", 90, 100, 10, "PLN"⟩ := by
    norm_num [dealOf, sortByTimestamp, stableSort, insertSorted, round1]
  simp [findCurrentDeals, dealCandidates, stableSort, insertSorted, hb, ha]

theorem dealOf_of_getLast (url : String) (history : List PriceEntry)
    (latest previous : PriceEntry) (hlen : ¬history.length < 2)
    (hl : (sortByTimestamp history).getLast? = some latest)
    (hp : (sortByTimestamp history).dropLast.getLast? = some previous) :
    dealOf url history
      = if latest.price < previous.price then
          if 5 ≤ (previous.price - latest.price) / previous.price * 100 then
            some ⟨url, latest.title, latest.price, previous.price,
              round1 ((previous.price - latest.price) / previous.price * 100),
              latest.currency⟩
          else none
        else none := by
  rw [dealOf, if_neg hlen, hl, hp]

/-- C6: an item whose history has fewer than two records is skipped; an item
with `previous.price > 0` yields a deal exactly when
`(previous.price - latest.price) / previous.price * 100 ≥ 5` (the code's
extra `latest.price < previous.price` guard is implied by the threshold). -/
theorem C6_threshold_iff (url : String) (history : List PriceEntry) :
    (history.length < 2 → dealOf url history = none)
      ∧ ∀ latest previous : PriceEntry,
          (sortByTimestamp history).getLast? = some latest →
          (sortByTimestamp history).dropLast.getLast? = some previous →
          0 < previous.price →
          ((dealOf url history).isSome
            ↔ 5 ≤ (previous.price - latest.price) / previous.price * 100) := by
  constructor
  · intro h
    rw [dealOf, if_pos h]
  · intro latest previous hl hp hpos
    have hlen : ¬history.length < 2 := by
      intro hlt
      have hne : (sortByTimestamp history).dropLast ≠ [] := by
        intro hnil
        rw [hnil] at hp
        simp at hp
      have hlen2 : (sortByTimestamp history).length = history.length := by
        unfold sortByTimestamp
        exact length_stableSort _ _
      have := List.length_dropLast (sortByTimestamp history)
      have hpos2 : 0 < (sortByTimestamp history).dropLast.length :=
        List.length_pos.mpr hne
      omega
    rw [dealOf_of_getLast url history latest previous hlen hl hp]
    by_cases hc : latest.price < previous.price
    · rw [if_pos hc]
      by_cases hd : 5 ≤ (previous.price - latest.price) / previous.price * 100
      · simp [hd]
      · simp [hd]
    · rw [if_neg hc]
      simp only [Option.isSome_none, Bool.false_eq_true, false_iff, not_le]
      have h1 : previous.price - latest.price ≤ 0 := by
        have := not_lt.mp hc
        linarith
      have h2 : (previous.price - latest.price) / previous.price ≤ 0 :=
        div_nonpos_iff.mpr (Or.inr ⟨h1, le_of_lt hpos⟩)
      nlinarith

/-- Witness for C6: a one-record history is skipped, and the spec's example
history `[100, 90]` hits the iff with drop percentage 10. -/
theorem C6_threshold_iff_witness :
    dealOf "u" [⟨"t", 100, "PLN", 0⟩] = none
      ∧ ((dealOf "u" [⟨"t", 100, "PLN", 0⟩, ⟨"t", 90, "PLN", 1⟩]).isSome
          ↔ 5 ≤ (((100 : ℚ) - 90) / 100 * 100)) := by
  constructor
  · exact (C6_threshold_iff "u" [⟨"t", 100, "PLN", 0⟩]).1 (by norm_num)
  · exact (C6_threshold_iff "u" [⟨"t", 100, "PLN", 0⟩, ⟨"t", 90, "PLN", 1⟩]).2
      ⟨"t", 90, "PLN", 1⟩ ⟨"t", 100, "PLN", 0⟩
      (by simp [sortByTimestamp, stableSort, insertSorted])
      (by simp [sortByTimestamp, stableSort, insertSorted])
      (by norm_num)

/-- C3 counterexample: on the same-calendar-day dedup path `savePriceHistory`
returns without running `cleanOldEntries`, so a record call can leave a
PriceRecord strictly older than `now - 30 days` in the store.  Here item `"A"`
holds a record with timestamp 0; a record call for `"B"` at
`now = 2601000000` (same day as B's existing entry, and `now - retentionMs =
9000000 > 0`) is a no-op and the stale record survives, refuting the claim
that every record call leaves no over-age record behind. -/
theorem C3_dedup_skips_prune_counterexample :
    savePriceHistory 2601000000 "B" "b" 5 "PLN"
        [("A", [⟨"a", 10, "PLN", 0⟩]), ("B", [⟨"b", 5, "PLN", 2600000000⟩])]
      = [("A", [⟨"a", 10, "PLN", 0⟩]), ("B", [⟨"b", 5, "PLN", 2600000000⟩])]
      ∧ getSeries
          (savePriceHistory 2601000000 "B" "b" 5 "PLN"
            [("A", [⟨"a", 10, "PLN", 0⟩]), ("B", [⟨"b", 5, "PLN", 2600000000⟩])])
          "A" = [⟨"a", 10, "PLN", 0⟩]
      ∧ (0 : Int) < 2601000000 - retentionMs := by
  refine ⟨by decide, by decide, by decide⟩

end Scalper

namespace Scalper

theorem getKey_cons {V : Type} (kv : String × V) (l : List (String × V))
    (u : String) :
    getKey (kv :: l) u
      = if (kv.1 == u) = true then some kv.2 else getKey l u := by
  by_cases h : (kv.1 == u) = true
  · rw [if_pos h]
    unfold getKey
    rw [List.find?_cons, h]
    rfl
  · rw [if_neg h]
    unfold getKey
    rw [List.find?_cons, (by simpa using h : (kv.1 == u) = false)]

theorem setKey_cons_ne {V : Type} (kv : String × V) (l : List (String × V))
    (k : String) (v : V) (h : (kv.1 == k) = false) :
    setKey (kv :: l) k v = kv :: setKey l k v := by
  have h' : ¬((kv.1 == k) = true) := by simp [h]
  unfold setKey
  rw [List.any_cons, h, Bool.false_or]
  by_cases ha : l.any (fun x => x.1 == k) = true
  · rw [if_pos ha, if_pos ha, List.map_cons, if_neg h']
  · rw [if_neg ha, if_neg ha, List.cons_append]

theorem getKey_setKey_self {V : Type} (l : List (String × V)) (k : String)
    (v : V) : getKey (setKey l k v) k = some v := by
  induction l with
  | nil =>
    unfold setKey getKey
    simp
  | cons kv rest ih =>
    by_cases h : (kv.1 == k) = true
    · have ha : ((kv :: rest).any fun x => x.1 == k) = true := by
        rw [List.any_cons, h, Bool.true_or]
      unfold setKey
      rw [if_pos ha, List.map_cons, if_pos h, getKey_cons]
      simp
    · rw [setKey_cons_ne kv rest k v (by simpa using h), getKey_cons]
      rw [if_neg h]
      exact ih

theorem getKey_map_overwrite_ne {V : Type} (l : List (String × V))
    (k u : String) (v : V) (h : (k == u) = false) :
    getKey
        (l.map (fun x => if (x.1 == k) = true then (k, v) else x)) u
      = getKey l u := by
  induction l with
  | nil => rfl
  | cons kv rest ih =>
    rw [List.map_cons, getKey_cons, getKey_cons]
    by_cases hk : (kv.1 == k) = true
    · have hkv : kv.1 = k := by simpa using hk
      rw [if_pos hk]
      have h1 : ((k, v).1 == u) = false := h
      have h2 : (kv.1 == u) = false := by
        rw [hkv]
        exact h
      rw [h1, h2]
      simp only [Bool.false_eq_true, if_false]
      exact ih
    · rw [if_neg hk]
      by_cases hu : (kv.1 == u) = true
      · rw [hu]
        rfl
      · rw [(by simpa using hu : (kv.1 == u) = false)]
        simp only [Bool.false_eq_true, if_false]
        exact ih

theorem getKey_append_single_ne {V : Type} (l : List (String × V))
    (k u : String) (v : V) (h : (k == u) = false) :
    getKey (l ++ [(k, v)]) u = getKey l u := by
  induction l with
  | nil =>
    rw [List.nil_append, getKey_cons]
    rw [(h : ((k, v).1 == u) = false)]
    simp [getKey]
  | cons kv rest ih =>
    rw [List.cons_append, getKey_cons, getKey_cons]
    by_cases hu : (kv.1 == u) = true
    · rw [hu]
      rfl
    · rw [(by simpa using hu : (kv.1 == u) = false)]
      simp only [Bool.false_eq_true, if_false]
      exact ih

theorem getKey_setKey_ne {V : Type} (l : List (String × V)) (k u : String)
    (v : V) (h : (k == u) = false) :
    getKey (setKey l k v) u = getKey l u := by
  unfold setKey
  by_cases ha : l.any (fun x => x.1 == k) = true
  · rw [if_pos ha]
    exact getKey_map_overwrite_ne l k u v h
  · rw [if_neg ha]
    exact getKey_append_single_ne l k u v h

theorem keys_setKey_overwrite {V : Type} (l : List (String × V)) (k : String)
    (v : V) :
    (l.map (fun x => if (x.1 == k) = true then (k, v) else x)).map Prod.fst
      = l.map Prod.fst := by
  induction l with
  | nil => rfl
  | cons kv rest ih =>
    rw [List.map_cons, List.map_cons, List.map_cons]
    by_cases hk : (kv.1 == k) = true
    · have hkv : kv.1 = k := by simpa using hk
      rw [if_pos hk, hkv, ih]
    · rw [if_neg hk, ih]

theorem nodup_setKey {V : Type} (l : List (String × V)) (k : String) (v : V)
    (h : (l.map Prod.fst).Nodup) :
    ((setKey l k v).map Prod.fst).Nodup := by
  unfold setKey
  by_cases ha : l.any (fun x => x.1 == k) = true
  · rw [if_pos ha, keys_setKey_overwrite]
    exact h
  · rw [if_neg ha, List.map_append]
    rw [List.nodup_append]
    refine ⟨h, List.nodup_singleton _, ?_⟩
    intro x hx
    have hne : ∀ y ∈ l, (y.1 == k) = false := by
      intro y hy
      by_contra hc
      exact ha (List.any_eq_true.mpr ⟨y, hy, by simpa using hc⟩)
    obtain ⟨y, hy, rfl⟩ := List.mem_map.mp hx
    have := hne y hy
    simp only [List.map_cons, List.map_nil, List.mem_singleton]
    intro hk
    rw [hk] at this
    simp at this

theorem countP_key_of_any {V : Type} (l : List (String × V)) (k : String)
    (ha : l.any (fun x => x.1 == k) = true)
    (h : (l.map Prod.fst).Nodup) :
    l.countP (fun x => x.1 == k) = 1 := by
  induction l with
  | nil => simp at ha
  | cons kv rest ih =>
    rw [List.map_cons, List.nodup_cons] at h
    by_cases hk : (kv.1 == k) = true
    · have hzero : rest.countP (fun x => x.1 == k) = 0 := by
        rw [List.countP_eq_zero]
        intro y hy
        intro hyk
        have hyk' : y.1 = k := by simpa using hyk
        have hkk : kv.1 = k := by simpa using hk
        exact h.1 (by
          rw [hkk, ← hyk']
          exact List.mem_map.mpr ⟨y, hy, rfl⟩)
      simp [List.countP_cons, hk, hzero]
    · rw [List.any_cons, (by simpa using hk : (kv.1 == k) = false),
        Bool.false_or] at ha
      simpa [List.countP_cons, hk] using ih ha h.2

theorem countP_setKey {V : Type} (l : List (String × V)) (k : String) (v : V)
    (h : (l.map Prod.fst).Nodup) :
    (setKey l k v).countP (fun x => x.1 == k) = 1 := by
  unfold setKey
  by_cases ha : l.any (fun x => x.1 == k) = true
  · rw [if_pos ha]
    rw [List.countP_map]
    have heq : l.countP
        ((fun x : String × V => x.1 == k)
          ∘ (fun x => if (x.1 == k) = true then (k, v) else x))
        = l.countP (fun x => x.1 == k) := by
      apply List.countP_congr
      intro x _
      by_cases hx : (x.1 == k) = true
      · simp [Function.comp, hx]
      · simp [Function.comp, hx]
    rw [heq]
    exact countP_key_of_any l k ha h
  · rw [if_neg ha, List.countP_append]
    have hzero : l.countP (fun x => x.1 == k) = 0 := by
      rw [List.countP_eq_zero]
      intro y hy hyk
      exact ha (List.any_eq_true.mpr ⟨y, hy, by simpa using hyk⟩)
    rw [hzero]
    simp

/-- C8: subscribing the same `(userId, url)` twice with different target
prices leaves exactly one entry under the registry key, holding the second
call's channel, target price and creation time. -/
theorem C8_resubscribe_overwrites (reg : Registry) (now1 now2 : Millis)
    (userId ch1 ch2 url : String) (p1 p2 : ℚ)
    (hnd : (reg.map Prod.fst).Nodup) :
    (saveTrackedItem now2 userId ch2 url p2
        (saveTrackedItem now1 userId ch1 url p1 reg)).countP
        (fun kv => kv.1 == trackKey userId url) = 1
      ∧ getKey
          (saveTrackedItem now2 userId ch2 url p2
            (saveTrackedItem now1 userId ch1 url p1 reg))
          (trackKey userId url)
        = some ⟨userId, ch2, url, p2, now2⟩ := by
  constructor
  · exact countP_setKey _ _ _ (nodup_setKey _ _ _ hnd)
  · exact getKey_setKey_self _ _ _

/-- Witness for C8 on the empty registry. -/
theorem C8_resubscribe_overwrites_witness :
    (saveTrackedItem 1 "u" "c2" "x" 20
        (saveTrackedItem 0 "u" "c1" "x" 10 [])).countP
        (fun kv => kv.1 == trackKey "u" "x") = 1
      ∧ getKey
          (saveTrackedItem 1 "u" "c2" "x" 20
            (saveTrackedItem 0 "u" "c1" "x" 10 []))
          (trackKey "u" "x")
        = some ⟨"u", "c2", "x", 20, 1⟩ :=
  C8_resubscribe_overwrites [] 0 1 "u" "c1" "c2" "x" 10 20 (by simp)

end Scalper

namespace Scalper

/-- C1 counterexample: a tracked item (target 60) whose fetch returns price 50
(positive and at or below target), with the channel found but the notification
send failing (`notifySucceeds := false`), is nevertheless removed from the
registry by the tick: `channel.send` is not awaited and `removeTrackedItem`
runs unconditionally, so the claim that the item is still present after a
failed send is false. -/
theorem C1_notify_failure_counterexample :
    (tickItem 0 ⟨"u1", "ch", "it", 60, 0⟩
        ⟨some ⟨"T", 50, "PLN"⟩, true, false⟩ []
        [("u1-it", ⟨"u1", "ch", "it", 60, 0⟩)]).2 = [] := by
  simp [tickItem, scrapeRecord, removeTrackedItem, trackKey]
  norm_num

/-- C1 (amended): when the fetched price is positive and at or below the
target, the registry outcome of the tick is decided solely by whether the
channel was found — the item is removed regardless of whether the notification
send succeeds (the send is fire-and-forget), and survives only when the
channel lookup fails. -/
theorem C1_removal_ignores_notify (now : Millis) (item : TrackedItem)
    (p : FetchedProduct) (channelFound notifySucceeds : Bool)
    (store : PriceHistory) (reg : Registry)
    (h1 : 0 < p.price) (h2 : p.price ≤ item.targetPrice) :
    (tickItem now item ⟨some p, channelFound, notifySucceeds⟩ store reg).2
      = if channelFound = true then removeTrackedItem item.userId item.url reg
        else reg := by
  simp only [tickItem]
  rw [if_pos (⟨h2, h1⟩ : p.price ≤ item.targetPrice ∧ 0 < p.price)]
  cases channelFound
  · simp
  · simp

/-- Witness for C1's amended theorem: price 50 against target 60 with a found
channel and a failing send removes the entry. -/
theorem C1_removal_ignores_notify_witness :
    (0 : ℚ) < 50 ∧ (50 : ℚ) ≤ 60
      ∧ (tickItem 0 ⟨"u2", "ch", "it2", 60, 0⟩
            ⟨some ⟨"T", 50, "PLN"⟩, true, false⟩ []
            [("u2-it2", ⟨"u2", "ch", "it2", 60, 0⟩)]).2
          = if true = true then
              removeTrackedItem "u2" "it2" [("u2-it2", ⟨"u2", "ch", "it2", 60, 0⟩)]
            else [("u2-it2", ⟨"u2", "ch", "it2", 60, 0⟩)] :=
  ⟨by norm_num, by norm_num,
    C1_removal_ignores_notify 0 ⟨"u2", "ch", "it2", 60, 0⟩ ⟨"T", 50, "PLN"⟩
      true false [] [("u2-it2", ⟨"u2", "ch", "it2", 60, 0⟩)]
      (by norm_num) (by norm_num)⟩

theorem mem_cleanOldEntries {now : Millis} {s : PriceHistory}
    {kv : String × List PriceEntry} (h : kv ∈ cleanOldEntries now s) :
    kv.2 ≠ [] ∧ ∀ e ∈ kv.2, now - retentionMs < e.timestamp := by
  unfold cleanOldEntries at h
  obtain ⟨h1, h2⟩ := List.mem_filter.mp h
  constructor
  · intro hnil
    rw [hnil] at h2
    simp at h2
  · obtain ⟨kv0, hmem, rfl⟩ := List.mem_map.mp h1
    intro e he
    have := (List.mem_filter.mp he).2
    simpa using this

/-- C3 (amended): immediately after any record call that actually appends (the
non-dedup path), every item in the store has a nonempty series whose entries
all lie strictly inside the retention window; on the same-day dedup path the
store is returned unpruned (see the counterexample). -/
theorem C3_prune_after_append (now : Millis) (url title : String) (price : ℚ)
    (currency : String) (s : PriceHistory)
    (h : (getSeries s url).any (fun e => dayOf e.timestamp == dayOf now)
      = false) :
    ∀ kv ∈ savePriceHistory now url title price currency s,
      kv.2 ≠ [] ∧ ∀ e ∈ kv.2, now - retentionMs < e.timestamp := by
  intro kv hkv
  unfold savePriceHistory at hkv
  rw [if_neg (by simp [h])] at hkv
  exact mem_cleanOldEntries hkv

/-- Witness for C3's amended theorem: a fresh record on the empty store. -/
theorem C3_prune_after_append_witness :
    (getSeries ([] : PriceHistory) "u").any
        (fun e => dayOf e.timestamp == dayOf 0) = false
      ∧ ∀ kv ∈ savePriceHistory 0 "u" "t" 5 "PLN" [],
          kv.2 ≠ [] ∧ ∀ e ∈ kv.2, 0 - retentionMs < e.timestamp :=
  ⟨rfl, C3_prune_after_append 0 "u" "t" 5 "PLN" [] rfl⟩

theorem cleanOldEntries_cons (now : Millis) (kv : String × List PriceEntry)
    (rest : PriceHistory) :
    cleanOldEntries now (kv :: rest)
      = if (!(kv.2.filter
            (fun e => decide (now - retentionMs < e.timestamp))).isEmpty) = true
        then (kv.1, kv.2.filter
            (fun e => decide (now - retentionMs < e.timestamp)))
          :: cleanOldEntries now rest
        else cleanOldEntries now rest := by
  simp only [cleanOldEntries, List.map_cons, List.filter_cons]

theorem getKey_eq_none {V : Type} (l : List (String × V)) (u : String)
    (h : u ∉ l.map Prod.fst) : getKey l u = none := by
  induction l with
  | nil => rfl
  | cons kv rest ih =>
    rw [List.map_cons, List.mem_cons] at h
    push_neg at h
    rw [getKey_cons,
      (beq_eq_false_iff_ne.mpr (fun hh => h.1 hh.symm) : (kv.1 == u) = false)]
    simp only [Bool.false_eq_true, if_false]
    exact ih h.2

theorem getSeries_cleanOldEntries (now : Millis) (s : PriceHistory)
    (u : String) (hnd : (s.map Prod.fst).Nodup) :
    getSeries (cleanOldEntries now s) u
      = (getSeries s u).filter
          (fun e => decide (now - retentionMs < e.timestamp)) := by
  induction s with
  | nil => rfl
  | cons kv rest ih =>
    rw [List.map_cons, List.nodup_cons] at hnd
    rw [cleanOldEntries_cons]
    by_cases he : (!(kv.2.filter
        (fun e => decide (now - retentionMs < e.timestamp))).isEmpty) = true
    · rw [if_pos he]
      unfold getSeries
      rw [getKey_cons, getKey_cons]
      by_cases hu : (kv.1 == u) = true
      · rw [hu]
        simp
      · rw [(by simpa using hu : (kv.1 == u) = false)]
        simp only [Bool.false_eq_true, if_false]
        exact ih hnd.2
    · rw [if_neg he]
      have hemp : kv.2.filter
          (fun e => decide (now - retentionMs < e.timestamp)) = [] := by
        simpa [List.isEmpty_iff] using he
      by_cases hu : (kv.1 == u) = true
      · have hku : kv.1 = u := by simpa using hu
        have hnone : getKey rest u = none :=
          getKey_eq_none rest u (by
            rw [← hku]
            exact hnd.1)
        have hclean : getSeries (cleanOldEntries now rest) u
            = (getSeries rest u).filter
                (fun e => decide (now - retentionMs < e.timestamp)) :=
          ih hnd.2
        rw [hclean]
        unfold getSeries
        rw [getKey_cons, hu, hnone]
        simp [hemp]
      · unfold getSeries
        rw [getKey_cons, (by simpa using hu : (kv.1 == u) = false)]
        simp only [Bool.false_eq_true, if_false]
        exact ih hnd.2

/-- C9 counterexample: a record call that appends for URL `"A"` also prunes
(and here deletes) item `"B"`'s series, because `cleanOldEntries` walks every
URL in the object, not just the written one: `"B"`'s only record (timestamp 0)
is outside the window at `now = 2600000000` and vanishes. -/
theorem C9_other_item_changed_counterexample :
    getSeries [("B", [⟨"b", 5, "PLN", 0⟩])] "B" = [⟨"b", 5, "PLN", 0⟩]
      ∧ getSeries
          (savePriceHistory 2600000000 "A" "a" 7 "PLN"
            [("B", [⟨"b", 5, "PLN", 0⟩])]) "B" = [] := by
  refine ⟨by decide, by decide⟩

/-- C9 (amended): a record call that appends for `url` leaves every other
item's series equal to its old series filtered to the retention window —
nothing is added or reordered, but over-age entries of other items are pruned
too (store-wide lazy pruning). -/
theorem C9_other_items_pruned_only (now : Millis) (url title : String)
    (price : ℚ) (currency : String) (s : PriceHistory) (u : String)
    (hnd : (s.map Prod.fst).Nodup) (hne : (url == u) = false)
    (happend : (getSeries s url).any
      (fun e => dayOf e.timestamp == dayOf now) = false) :
    getSeries (savePriceHistory now url title price currency s) u
      = (getSeries s u).filter
          (fun e => decide (now - retentionMs < e.timestamp)) := by
  unfold savePriceHistory
  rw [if_neg (by simp [happend])]
  rw [getSeries_cleanOldEntries now _ u (nodup_setKey s url _ hnd)]
  unfold getSeries
  rw [getKey_setKey_ne s url u _ hne]

/-- Witness for C9's amended theorem: recording `"u"` keeps the other item
`"o"`'s in-window record, exactly as the filter predicts. -/
theorem C9_other_items_pruned_only_witness :
    ((([("o", [⟨"x", 3, "PLN", 5⟩])] : PriceHistory).map Prod.fst).Nodup
        ∧ (("u" : String) == "o") = false
        ∧ (getSeries [("o", [⟨"x", 3, "PLN", 5⟩])] "u").any
            (fun e => dayOf e.timestamp == dayOf 10) = false)
      ∧ getSeries (savePriceHistory 10 "u" "t" 7 "PLN"
            [("o", [⟨"x", 3, "PLN", 5⟩])]) "o"
          = (getSeries [("o", [⟨"x", 3, "PLN", 5⟩])] "o").filter
              (fun e => decide (10 - retentionMs < e.timestamp)) :=
  ⟨⟨by simp, by decide, rfl⟩,
    C9_other_items_pruned_only 10 "u" "t" 7 "PLN"
      [("o", [⟨"x", 3, "PLN", 5⟩])] "o" (by simp) (by decide) rfl⟩

end Scalper

namespace Scalper

theorem retentionMs_pos : (0 : Int) < retentionMs := by norm_num [retentionMs]

theorem savePriceHistory_noop (now : Millis) (url title : String) (price : ℚ)
    (currency : String) (s : PriceHistory)
    (h : (getSeries s url).any (fun e => dayOf e.timestamp == dayOf now)
      = true) :
    savePriceHistory now url title price currency s = s := by
  unfold savePriceHistory
  rw [if_pos h]

theorem scrapeRecord_noop_sameday (now : Millis) (url title : String)
    (price : ℚ) (currency : String) (s : PriceHistory) (D : Int)
    (hday : dayOf now = D)
    (hex : ∃ e ∈ getSeries s url, dayOf e.timestamp = D) :
    scrapeRecord now url title price currency s = s := by
  unfold scrapeRecord
  by_cases hp : 0 < price
  · rw [if_pos hp]
    apply savePriceHistory_noop
    obtain ⟨e, he, hD⟩ := hex
    exact List.any_eq_true.mpr ⟨e, he, by simp [hD, hday]⟩
  · rw [if_neg hp]

theorem runCalls_noop (url : String) (cs : List RecordCall) (s : PriceHistory)
    (D : Int) (hdays : ∀ c ∈ cs, dayOf c.now = D)
    (hex : ∃ e ∈ getSeries s url, dayOf e.timestamp = D) :
    runCalls url cs s = s := by
  induction cs with
  | nil => rfl
  | cons c rest ih =>
    unfold runCalls
    simp only [List.foldl_cons]
    rw [scrapeRecord_noop_sameday c.now url c.title c.price c.currency s D
      (hdays c (List.mem_cons_self c rest)) hex]
    exact ih (fun c' hc' => hdays c' (List.mem_cons_of_mem c hc'))

theorem getSeries_record_append (now : Millis) (url title : String)
    (price : ℚ) (currency : String) (s : PriceHistory)
    (hnd : (s.map Prod.fst).Nodup)
    (h : (getSeries s url).any (fun e => dayOf e.timestamp == dayOf now)
      = false) :
    getSeries (savePriceHistory now url title price currency s) url
      = (getSeries s url ++ [(⟨title, price, currency, now⟩ : PriceEntry)]).filter
          (fun e => decide (now - retentionMs < e.timestamp)) := by
  unfold savePriceHistory
  rw [if_neg (by simp [h])]
  rw [getSeries_cleanOldEntries now _ url (nodup_setKey s url _ hnd)]
  unfold getSeries
  rw [getKey_setKey_self]
  rfl

/-- C2: over a sequence of record calls for one URL that all happen on the
same calendar day `D`, starting from a store with no day-`D` entry for that
URL, the resulting series holds exactly one day-`D` PriceRecord — the one
written by the first call with a positive price — and any further same-day
record call leaves the whole store unchanged. -/
theorem C2_first_of_day_wins (url : String) (cs : List RecordCall)
    (s : PriceHistory) (D : Int)
    (hnd : (s.map Prod.fst).Nodup)
    (hdays : ∀ c ∈ cs, dayOf c.now = D)
    (hnone : ∀ e ∈ getSeries s url, dayOf e.timestamp ≠ D)
    (c₀ : RecordCall)
    (hfirst : cs.find? (fun c => decide (0 < c.price)) = some c₀) :
    (getSeries (runCalls url cs s) url).filter
        (fun e => dayOf e.timestamp == D)
      = [(⟨c₀.title, c₀.price, c₀.currency, c₀.now⟩ : PriceEntry)]
      ∧ ∀ c : RecordCall, dayOf c.now = D →
          scrapeRecord c.now url c.title c.price c.currency (runCalls url cs s)
            = runCalls url cs s := by
  induction cs with
  | nil => simp at hfirst
  | cons c rest ih =>
    by_cases hp : 0 < c.price
    · have hc₀ : c = c₀ := by
        rw [List.find?_cons,
          (by simpa using hp : (decide (0 < c.price)) = true)] at hfirst
        simpa using hfirst
      subst hc₀
      have hday : dayOf c.now = D := hdays c (List.mem_cons_self c rest)
      have happend : (getSeries s url).any
          (fun e => dayOf e.timestamp == dayOf c.now) = false := by
        rw [Bool.eq_false_iff]
        intro htrue
        obtain ⟨e, he, hbeq⟩ := List.any_eq_true.mp htrue
        apply hnone e he
        have hbe : dayOf e.timestamp = dayOf c.now := by simpa using hbeq
        rw [hbe, hday]
      have hser : getSeries
          (savePriceHistory c.now url c.title c.price c.currency s) url
          = (getSeries s url
              ++ [(⟨c.title, c.price, c.currency, c.now⟩ : PriceEntry)]).filter
              (fun e => decide (c.now - retentionMs < e.timestamp)) :=
        getSeries_record_append c.now url c.title c.price c.currency s hnd
          happend
      have hpred : c.now - retentionMs < c.now := by
        linarith [retentionMs_pos]
      have hmem : (⟨c.title, c.price, c.currency, c.now⟩ : PriceEntry)
          ∈ getSeries
            (savePriceHistory c.now url c.title c.price c.currency s) url := by
        rw [hser]
        refine List.mem_filter.mpr ⟨List.mem_append_right _ (by simp), ?_⟩
        simpa using hpred
      have hrun : runCalls url (c :: rest) s
          = savePriceHistory c.now url c.title c.price c.currency s := by
        unfold runCalls
        simp only [List.foldl_cons]
        rw [(by
          unfold scrapeRecord
          rw [if_pos hp] :
            scrapeRecord c.now url c.title c.price c.currency s
              = savePriceHistory c.now url c.title c.price c.currency s)]
        exact runCalls_noop url rest _ D
          (fun c' hc' => hdays c' (List.mem_cons_of_mem c hc'))
          ⟨⟨c.title, c.price, c.currency, c.now⟩, hmem, hday⟩
      constructor
      · rw [hrun, hser, List.filter_append, List.filter_append]
        have h1 : ((getSeries s url).filter
            (fun e => decide (c.now - retentionMs < e.timestamp))).filter
            (fun e => dayOf e.timestamp == D) = [] := by
          rw [List.filter_eq_nil_iff]
          intro e he
          have he' : e ∈ getSeries s url := List.mem_of_mem_filter he
          simp [hnone e he']
        have h2 : (([⟨c.title, c.price, c.currency, c.now⟩]
              : List PriceEntry).filter
            (fun e => decide (c.now - retentionMs < e.timestamp))).filter
            (fun e => dayOf e.timestamp == D)
            = [⟨c.title, c.price, c.currency, c.now⟩] := by
          simp [List.filter_cons, hpred, hday]
        rw [h1, h2, List.nil_append]
      · intro c' hday'
        rw [hrun]
        exact scrapeRecord_noop_sameday c'.now url c'.title c'.price
          c'.currency _ D hday'
          ⟨⟨c.title, c.price, c.currency, c.now⟩, hmem, hday⟩
    · have hstep : scrapeRecord c.now url c.title c.price c.currency s
          = s := by
        unfold scrapeRecord
        rw [if_neg hp]
      have hfirst' : rest.find? (fun x => decide (0 < x.price)) = some c₀ := by
        rw [List.find?_cons,
          (by simpa using hp : (decide (0 < c.price)) = false)] at hfirst
        exact hfirst
      have hrun : runCalls url (c :: rest) s = runCalls url rest s := by
        unfold runCalls
        simp only [List.foldl_cons]
        rw [hstep]
      rw [hrun]
      exact ih (fun c' hc' => hdays c' (List.mem_cons_of_mem c hc')) hfirst'

end Scalper

namespace Scalper

/-- Witness for C2: a failed (negative-price) call, then two positive calls
on day 0 — the series keeps exactly the first positive call's record, and a
fourth same-day call is a no-op. -/
theorem C2_first_of_day_wins_witness :
    (getSeries (runCalls "u"
          [(⟨"a", -1, "PLN", 100⟩ : RecordCall), ⟨"b", 2, "PLN", 200⟩,
            ⟨"c", 3, "PLN", 300⟩] [])
        "u").filter (fun e => dayOf e.timestamp == 0)
      = [(⟨"b", 2, "PLN", 200⟩ : PriceEntry)]
      ∧ scrapeRecord 400 "u" "d" 4 "PLN"
          (runCalls "u"
            [(⟨"a", -1, "PLN", 100⟩ : RecordCall), ⟨"b", 2, "PLN", 200⟩,
              ⟨"c", 3, "PLN", 300⟩] [])
        = runCalls "u"
            [(⟨"a", -1, "PLN", 100⟩ : RecordCall), ⟨"b", 2, "PLN", 200⟩,
              ⟨"c", 3, "PLN", 300⟩] [] := by
  have h := C2_first_of_day_wins "u"
    [(⟨"a", -1, "PLN", 100⟩ : RecordCall), ⟨"b", 2, "PLN", 200⟩,
      ⟨"c", 3, "PLN", 300⟩] [] 0
    (by simp)
    (by
      intro c hc
      fin_cases hc <;> rfl)
    (by
      intro e he
      simp [getSeries, getKey] at he)
    ⟨"b", 2, "PLN", 200⟩
    (by norm_num [List.find?_cons])
  exact ⟨h.1, h.2 ⟨"d", 4, "PLN", 400⟩ rfl⟩

end Scalper
